import Mathlib

/-!
# NormalJS core — shallow embedding and verification

This file embeds the core subsystems of the NormalJS ORM
(`ScopeBuilder`, `Record`, `Model`, `Request`, and the in-memory cache
adapter) as executable Lean definitions, translated from the TypeScript
source, and proves (or refutes) the frozen specification claims about
them.

JavaScript objects used as string-keyed dictionaries are modelled as
association lists (`List (κ × α)`), with the JS property semantics:
assignment overwrites in place preserving key order, deletion removes
the key, lookup returns the first binding.  JS values appearing in
records and criteria are modelled by the closed inductive `Value`;
`truthy` is JS truthiness restricted to those values.
-/

namespace Normal

/-- A JS runtime value as stored in record data, change sets and criteria. -/
inductive Value where
  | vNull
  | vBool (b : Bool)
  | vInt (n : Int)
  | vStr (s : String)
  deriving DecidableEq, Repr

/-- JS truthiness for `Value` (`undefined` is represented by `Option.none`
at use sites). -/
def truthy : Value → Bool
  | .vNull => false
  | .vBool b => b
  | .vInt n => n != 0
  | .vStr s => s ≠ ""

/-- Truthiness of a possibly-absent value (`none` = `undefined`, falsy). -/
def truthyOpt : Option Value → Bool
  | none => false
  | some v => truthy v

section MapOps

variable {κ : Type} {α : Type} [DecidableEq κ]

/-- JS property read: first binding for the key, `none` when absent. -/
def mget : List (κ × α) → κ → Option α
  | [], _ => none
  | (k', v') :: rest, k => if k' = k then some v' else mget rest k

/-- JS property write: overwrite the existing binding in place (keeping its
position), or append a new binding at the end. -/
def mset : List (κ × α) → κ → α → List (κ × α)
  | [], k, v => [(k, v)]
  | (k', v') :: rest, k, v =>
      if k' = k then (k, v) :: rest else (k', v') :: mset rest k v

/-- JS `delete obj[k]`: remove every binding for the key. -/
def merase : List (κ × α) → κ → List (κ × α)
  | [], _ => []
  | (k', v') :: rest, k =>
      if k' = k then merase rest k else (k', v') :: merase rest k

/-- JS `Object.prototype.hasOwnProperty`. -/
def hasOwn (m : List (κ × α)) (k : κ) : Bool :=
  (mget m k).isSome

/-- The keys of an association list, in order. -/
def keysOf (m : List (κ × α)) : List κ :=
  m.map Prod.fst

end MapOps

/-! ## ScopeBuilder (src/ScopeBuilder.ts)

`ScopeOptions` is the normalized scope options object.  A criteria
("where") object is modelled by `Where`: a JS object carrying a
top-level `and` array is `Where.and`, any other criteria shape is one
of the opaque constructors. -/

/-- A where-criteria tree.  `Where.and l` models a JS object `\x7band: [...]\x7d`
(the only shape `mergeWhere` inspects); the other constructors model the
remaining criteria shapes, which `mergeWhere` treats as opaque. -/
inductive Where where
  | pred (field : String) (value : Value)
  | and (l : List Where)
  | or (l : List Where)

/-- The `cache` option: `true`/`false` or a TTL in seconds. -/
inductive CacheOpt where
  | flag (b : Bool)
  | ttl (n : Nat)
  deriving DecidableEq, Repr

/-- An include directive (`IncludeOption` in the source).  The optional
nested `include` array is modelled as a plain list (`[]` = absent); the
source only ever tests it for non-emptiness and merges it.  The fields
not consulted by `ScopeBuilder` (`required`, `attributes`, ...) are
omitted. -/
inductive IncludeOption where
  | mk (relation : String) (asName : Option String) (incl : List IncludeOption)

/-- The `relation` field of an include directive. -/
def IncludeOption.relation : IncludeOption → String
  | .mk r _ _ => r

/-- The `as` field of an include directive. -/
def IncludeOption.asName : IncludeOption → Option String
  | .mk _ a _ => a

/-- The nested `include` array of an include directive. -/
def IncludeOption.incl : IncludeOption → List IncludeOption
  | .mk _ _ i => i

/-- Normalized scope options (`ScopeOptions` in the source); every member
is optional.  `where` and `include` are renamed `whereC` / `incl` because
they are Lean keywords. -/
structure ScopeOptions where
  whereC : Option Where := none
  incl : Option (List IncludeOption) := none
  cache : Option CacheOpt := none
  order : Option (List (String × Bool)) := none   -- (column, isDesc)
  limit : Option Nat := none
  offset : Option Nat := none
  attributes : Option (List String) := none

/-- `ScopeBuilder.mergeWhere`: AND-merge of two (possibly absent) where
clauses.  A base with a top-level `and` array gets the incoming clause
appended; otherwise a fresh `and` pair is built. -/
def mergeWhere (base incoming : Option Where) : Option Where :=
  match base with
  | none => incoming
  | some b =>
    match incoming with
    | none => some b
    | some w =>
      match b with
      | .and l => some (.and (l ++ [w]))
      | _ => some (.and [b, w])

/-- The dedup key `relation:as` used by `mergeIncludes`. -/
def includeKey (i : IncludeOption) : String :=
  i.relation ++ ":" ++ (i.asName.getD "")

/-- Replace the nested include list of the first entry with the given key
(the in-place mutation `existing.include = ...` of the source). -/
def setNestedIncl (key : String) (newIncl : List IncludeOption) :
    List IncludeOption → List IncludeOption
  | [] => []
  | x :: xs =>
      if includeKey x = key then .mk x.relation x.asName newIncl :: xs
      else x :: setNestedIncl key newIncl xs

/-- `ScopeBuilder.mergeIncludes`: concatenate include lists, de-duplicating
by `relation:as`; on a duplicate with a non-empty nested include list,
recursively merge the nested lists into the existing entry. -/
def mergeIncludes (base : List IncludeOption) : List IncludeOption → List IncludeOption
  | [] => base
  | .mk r a i :: rest =>
    if includeKey (.mk r a i) ∈ base.map includeKey then
      let base' :=
        if i.isEmpty then base
        else
          match base.find? (fun x => includeKey x == includeKey (.mk r a i)) with
          | some existing => setNestedIncl (includeKey (.mk r a i)) (mergeIncludes existing.incl i) base
          | none => base
      mergeIncludes base' rest
    else
      mergeIncludes (base ++ [.mk r a i]) rest
  termination_by l => sizeOf l
  decreasing_by all_goals (simp; try omega)

/-- `ScopeBuilder.mergeOptions`: where-clauses AND-accumulate, includes
concatenate with dedup, and `cache`/`order`/`limit`/`offset`/`attributes`
are replaced outright whenever the incoming scope defines them. -/
def mergeOptions (base incoming : ScopeOptions) : ScopeOptions where
  whereC :=
    match incoming.whereC with
    | some w => mergeWhere base.whereC (some w)
    | none => base.whereC
  incl :=
    match incoming.incl with
    | some inc => some (mergeIncludes (base.incl.getD []) inc)
    | none => base.incl
  cache := match incoming.cache with | some c => some c | none => base.cache
  order := match incoming.order with | some o => some o | none => base.order
  limit := match incoming.limit with | some l => some l | none => base.limit
  offset := match incoming.offset with | some o => some o | none => base.offset
  attributes := match incoming.attributes with | some a => some a | none => base.attributes

/-- A scope definition: an options object, or a parameterized function.
A function receiving the in-flight request may return options (`some o`)
or the pre-mutated request itself (`none`), in which case its option
contribution is empty (`extractOptionsFromRequest` returns `{}`).  The
query-builder mutation performed by such a function is outside the
options calculus and not modelled. -/
inductive ScopeDefinition where
  | opts (o : ScopeOptions)
  | fn (f : List Value → Option ScopeOptions)

/-- `ScopeBuilder.normalizeScopeDefinition`. -/
def normalizeScopeDefinition (d : ScopeDefinition) (args : List Value) : ScopeOptions :=
  match d with
  | .opts o => o
  | .fn f =>
    match f args with
    | some o => o
    | none => {}

/-- A scope application request: a bare name, or a name with positional
arguments (the JS object form `\x7bname: [args]\x7d`). -/
inductive ScopeRequest where
  | name (s : String)
  | withArgs (s : String) (args : List Value)

/-- The scope name of a request. -/
def ScopeRequest.scopeName : ScopeRequest → String
  | .name s => s
  | .withArgs s _ => s

/-- The positional arguments of a request. -/
def ScopeRequest.args : ScopeRequest → List Value
  | .name _ => []
  | .withArgs _ a => a

/-- The `ScopeBuilder` state: owning model name, named scopes map, and
optional default scope. -/
structure ScopeBuilder where
  modelName : String
  scopes : List (String × ScopeDefinition)
  defaultScope : Option ScopeDefinition

/-- The named-scope loop of `applyScopes`: resolve each request in caller
order, failing on an unregistered name, and fold the normalized options
into the accumulator. -/
def applyScopesGo (sb : ScopeBuilder) : List ScopeRequest → ScopeOptions → Except String ScopeOptions
  | [], merged => .ok merged
  | r :: rest, merged =>
    match mget sb.scopes r.scopeName with
    | none =>
        .error ("Scope '" ++ r.scopeName ++ "' not defined on model '" ++ sb.modelName ++ "'")
    | some d => applyScopesGo sb rest (mergeOptions merged (normalizeScopeDefinition d r.args))

/-- `ScopeBuilder.applyScopes`: start from empty options, merge the default
scope first when requested, then each named scope in caller order. -/
def applyScopes (sb : ScopeBuilder) (reqs : List ScopeRequest) (includeDefault : Bool) :
    Except String ScopeOptions :=
  let merged : ScopeOptions := {}
  let merged :=
    if includeDefault then
      match sb.defaultScope with
      | some d => mergeOptions merged (normalizeScopeDefinition d [])
      | none => merged
    else merged
  applyScopesGo sb reqs merged

/-! ## Fields, Records and Models (src/Record.ts, src/Model.ts)

`Fields.ts` is not part of the provided source; only its callers are.
Field behavior is therefore abstract: a `FieldDef` carries the name,
column and stored flag the callers consult, plus the per-field callbacks
(`deserialize`, `serialize`, `validate`, `toJSON`, lifecycle hooks) as
functions over the record's visible state.  Failable callbacks return
`Option String` (`some msg` = the callback threw).  Hooks that mutate
the record are not modelled (the defaults are no-ops and §4.1 requires
hook independence).

A record is modelled as its parent chain: `List RecCore`, head = the
record itself, tail = `_parent` chain (`[]` = no parent). -/

/-- A JS data object (row, change set, payload member). -/
abbrev DataMap := List (String × Value)

/-- The visible state of one record level as passed to field callbacks:
persisted data (`_data`) and pending changes (`_changes`). -/
structure RecView where
  rdata : DataMap
  rchanges : DataMap

/-- A field definition (`Fields.ts` is absent from the source; the members
are exactly those `Record`/`Model` consult).  `deserialize` is
`Modelled from the spec:` §4.1 requires it to be pure, so it is a
function of the raw value only. -/
structure FieldDef where
  name : String
  column : String
  stored : Bool := true
  deserialize : Value → Value := id
  serializeF : RecView → Option Value
  validateF : RecView → Option String := fun _ => none
  toJSONF : RecView → Option Value
  pre_updateF : RecView → Option String := fun _ => none
  post_updateF : RecView → Option String := fun _ => none
  pre_createF : RecView → Option String := fun _ => none
  post_createF : RecView → Option String := fun _ => none

/-- The initialized schema of one model, as consulted by `Record.sync`,
`Record.flush`, `Record.write`, `Model.allocate` and `Model.create`:
name, table, primary column, ordered field map, and cache settings.
`cacheOn` is the truthiness of the `Model.cache` getter (a repository
cache exists and `cacheTTL > 0`). -/
structure ModelDef where
  name : String
  table : String
  primaryColumn : String
  fields : List FieldDef
  cacheOn : Bool := false
  cacheTTL : Nat := 0
  cacheInvalidation : Bool := false

/-- One level of a record: its model, `_data`, `_changes`, `_isDirty`,
`_flushed` and `_isReady` (deferred hydration is asynchronous and is
modelled only by the boolean staying `false`). -/
structure RecCore where
  model : ModelDef
  rdata : DataMap := []
  rchanges : DataMap := []
  isDirty : Bool := false
  flushed : Bool := false
  isReady : Bool := false

/-- The view of a record level handed to field callbacks. -/
def view (c : RecCore) : RecView := ⟨c.rdata, c.rchanges⟩

/-- `Modelled from the spec:` the property getter attached by
`Field.attach` (Fields.ts is absent): reading a field by name returns the
pending change for its column if present, else the persisted value. -/
def readNamed (c : RecCore) (n : String) : Option Value :=
  match c.model.fields.find? (fun f => f.name == n) with
  | some f =>
    match mget c.rchanges f.column with
    | some v => some v
    | none => mget c.rdata f.column
  | none => none

/-- `Modelled from the spec:` the dirty-tracking property setter attached
by `Field.attach` (Fields.ts is absent): assigning a field by name records
the raw value in `_changes` under the field's column and marks the record
dirty.  Assigning a name with no field is a plain JS property write and is
not modelled. -/
def setNamed (c : RecCore) (n : String) (v : Value) : RecCore :=
  match c.model.fields.find? (fun f => f.name == n) with
  | some f => { c with rchanges := mset c.rchanges f.column v, isDirty := true }
  | none => c

/-- The per-field body of `Record.sync`: pick the field name over the raw
column name as the data key, skip the primary-key column once `_data`
already holds a truthy value, otherwise write the deserialized value into
`_data` and drop any pending change for the column. -/
def syncField (pkCol : String) (d : DataMap) (acc : RecCore) (f : FieldDef) : RecCore :=
  if hasOwn d f.name = true ∨ hasOwn d f.column = true then
    if f.column = pkCol ∧ truthyOpt (mget acc.rdata f.column) = true then acc
    else
      let key := if hasOwn d f.name then f.name else f.column
      { acc with
        rdata := mset acc.rdata f.column (f.deserialize ((mget d key).getD .vNull)),
        rchanges := merase acc.rchanges f.column }
  else acc

/-- `Record.sync` restricted to one record level (the field loop plus the
final `_isReady`/`_isDirty` bookkeeping). -/
def syncCore (c : RecCore) (d : DataMap) : RecCore :=
  let c' := c.model.fields.foldl (syncField c.model.primaryColumn d) c
  { c' with isReady := true, isDirty := decide (c'.rchanges ≠ []) }

/-- `Record.sync` over the whole chain: the parent is synced (first, in
the source; the per-level merges are independent) and then the record
itself. -/
def syncChain : List RecCore → DataMap → List RecCore
  | [], _ => []
  | c :: ps, d => syncCore c d :: syncChain ps d

/-- The `Record` constructor: empty `_changes`/`_data`, `sync(data)`
(which also syncs the parent chain), then `_isReady` is set from the
number of keys of `data`, and `_flushed`/`_isDirty` are reset. -/
def recNew (m : ModelDef) (d : DataMap) (parent : List RecCore) : List RecCore :=
  match syncChain ({ model := m } :: parent) d with
  | [] => []
  | c :: ps =>
    { c with isReady := decide ((keysOf d).eraseDups.length > 1),
             flushed := false, isDirty := false } :: ps


/-! ### Record.flush -/

/-- The external storage collaborator as seen by `Record.flush`: executing
`model.query().where(\x7bid\x7d).update(payload)` either succeeds (`none`) or
rejects with an error (`some msg`). -/
structure Storage where
  updateErr : String → List (String × Option Value) → Option String := fun _ _ => none

/-- An UPDATE statement executed by `flush`: target table, the `id` used
in the where clause, and the serialized payload.  A payload member is
`(column, none)` when `serialize` returned `undefined` (the source stores
it in the update object regardless). -/
structure UpdateOp where
  table : String
  whereId : Option Value
  payload : List (String × Option Value)
  deriving DecidableEq, Repr

/-- A cache write `cache.set(name ++ ":" ++ id, toRawJSON, ttl)`; the key
is kept as the (model name, id) pair. -/
structure CacheSetOp where
  modelName : String
  idValue : Option Value
  json : DataMap
  ttlSeconds : Nat
  deriving DecidableEq, Repr

/-- The observable outcome of a (possibly failing) flush: the post-state
of the chain (JS mutations persist even when the async function throws),
the UPDATE statements executed, the cache writes performed, the number of
cache-marker invalidations, and the propagated error if any. -/
structure FlushOut where
  recs : List RecCore
  writes : List UpdateOp := []
  cacheSets : List CacheSetOp := []
  invalidations : Nat := 0
  error : Option String := none

/-- First rejection of a `Promise.all` fan-out over the fields (the hooks
are all started; the first rejection in field order wins). -/
def firstHookErr (g : FieldDef → Option String) (fs : List FieldDef) : Option String :=
  fs.foldl (fun acc f => acc.orElse (fun _ => g f)) none

/-- The update-payload construction loop of `flush`: every stored field is
validated (a validation error aborts), and fields with a pending change
contribute `serialize(record)` under their column. -/
def buildUpdate (c : RecCore) : List FieldDef → List (String × Option Value) →
    Except String (List (String × Option Value))
  | [], acc => .ok acc
  | f :: fs, acc =>
    if f.stored = false then buildUpdate c fs acc
    else
      match f.validateF (view c) with
      | some e => .error e
      | none =>
        if hasOwn c.rchanges f.column then
          buildUpdate c fs (mset acc f.column (f.serializeF (view c)))
        else buildUpdate c fs acc

/-- `for (const key in this._changes) this._data[key] = this._changes[key]`. -/
def moveChanges (d ch : DataMap) : DataMap :=
  ch.foldl (fun acc kv => mset acc kv.1 kv.2) d

/-- The reconcile step of `flush`: pending changes move into `_data`, the
change set is cleared, and the record is marked clean and flushed. -/
def reconcileCore (c : RecCore) : RecCore :=
  { c with isDirty := false, rdata := moveChanges c.rdata c.rchanges,
           rchanges := [], flushed := true }

/-- `Record.toRawJSON`: each field's `toJSON` value under the field name,
skipping `undefined`. -/
def toRawJSON (c : RecCore) : DataMap :=
  c.model.fields.foldl (fun acc f =>
    match f.toJSONF (view c) with
    | some v => mset acc f.name v
    | none => acc) []

/-- The `post_update` fan-out of `flush`: for each key of the update
payload, `this._model.fields[key].post_update(this)`.  The fields map is
keyed by field *name* while the payload is keyed by *column*; a column
with no same-named field makes the source throw a `TypeError`. -/
def postUpdateHooksErr (c : RecCore) (upd : List (String × Option Value)) : Option String :=
  upd.foldl (fun acc kv =>
    acc.orElse (fun _ =>
      match c.model.fields.find? (fun f => f.name == kv.1) with
      | some f => f.post_updateF (view c)
      | none => some ("TypeError: this._model.fields[" ++ kv.1 ++ "] is undefined"))) none

/-- The dirty branch of `Record.flush` on one record level (the parent has
already been flushed): `_isDirty` is reset immediately, hooks run, every
stored field is validated, the changed columns are serialized into an
update payload, a non-empty payload is written to storage filtered by
primary key, and only then are the pending changes reconciled into
`_data` and cleared, the cache updated, and the post hooks run. -/
def flushSelf (sto : Storage) (c : RecCore) : FlushOut :=
  if c.isDirty = false then { recs := [c] }
  else
    -- this._isDirty = false (reset happens before any hook or validation)
    let c1 : RecCore := { c with isDirty := false }
    match firstHookErr (fun f => f.pre_updateF (view c1)) c1.model.fields with
    | some e => { recs := [c1], error := some e }
    | none =>
      match buildUpdate c1 c1.model.fields [] with
      | .error e => { recs := [c1], error := some e }
      | .ok upd =>
        let dbErr := if upd.isEmpty then none else sto.updateErr c1.model.table upd
        match dbErr with
        | some e => { recs := [c1], error := some e }
        | none =>
          let theWrites :=
            if upd.isEmpty then []
            else [UpdateOp.mk c1.model.table (readNamed c1 "id") upd]
          -- reconcile: move changes into _data, clear them, mark flushed
          let c2 : RecCore := reconcileCore c1
          let cs :=
            if c2.model.cacheOn then
              [CacheSetOp.mk c2.model.name (readNamed c2 "id") (toRawJSON c2) c2.model.cacheTTL]
            else []
          match postUpdateHooksErr c2 upd with
          | some e => { recs := [c2], writes := theWrites, cacheSets := cs, error := some e }
          | none =>
            { recs := [c2], writes := theWrites, cacheSets := cs,
              invalidations := if c2.model.cacheInvalidation then 1 else 0, error := none }

/-- `Record.flush` over the parent chain: the parent is flushed first and
a parent failure propagates with the record itself untouched. -/
def flushChain (sto : Storage) : List RecCore → FlushOut
  | [] => { recs := [] }
  | c :: ps =>
    let po := flushChain sto ps
    match po.error with
    | some e =>
      { recs := c :: po.recs, writes := po.writes, cacheSets := po.cacheSets,
        invalidations := po.invalidations, error := some e }
    | none =>
      let so := flushSelf sto c
      { recs := so.recs ++ po.recs, writes := po.writes ++ so.writes,
        cacheSets := po.cacheSets ++ so.cacheSets,
        invalidations := po.invalidations + so.invalidations, error := so.error }

/-! ### Record.write -/

/-- The observable outcome of `Record.write(data)`: post-state of the
chain, the surviving (mutated) caller data object, the flush effects, and
the propagated error if any. -/
structure WriteOut where
  recs : List RecCore
  remaining : Option DataMap
  writes : List UpdateOp := []
  cacheSets : List CacheSetOp := []
  invalidations : Nat := 0
  error : Option String := none

/-- The assignment loop of `write`: every data key that is a field of this
record's own model is assigned through its dirty-tracking setter and
deleted from the caller's object. -/
def writeAssign (c : RecCore) (d : DataMap) : RecCore × DataMap :=
  d.foldl (fun (acc : RecCore × DataMap) kv =>
    match c.model.fields.find? (fun f => f.name == kv.1) with
    | some f =>
      ({ acc.1 with rchanges := mset acc.1.rchanges f.column kv.2, isDirty := true },
       merase acc.2 kv.1)
    | none => acc) (c, d)

/-- `Record.write`: assign own-model keys (deleting them from the caller's
object), delegate a non-empty remainder to the parent's `write`, throw
when unknown keys survive (naming the remaining keys and the model), and
finish with a full `flush()`.  `none` data (`write()`) goes straight to
the flush. -/
def writeChain (sto : Storage) : List RecCore → Option DataMap → WriteOut
  | [], d => { recs := [], remaining := d }
  | c :: ps, none =>
    let fo := flushChain sto (c :: ps)
    { recs := fo.recs, remaining := none, writes := fo.writes, cacheSets := fo.cacheSets,
      invalidations := fo.invalidations, error := fo.error }
  | c :: ps, some d =>
    let (c1, d1) := writeAssign c d
    if ps.isEmpty = false ∧ d1.isEmpty = false then
      let po := writeChain sto ps (some d1)
      match po.error with
      | some e =>
        { recs := c1 :: po.recs, remaining := po.remaining, writes := po.writes,
          cacheSets := po.cacheSets, invalidations := po.invalidations, error := some e }
      | none =>
        let d2 := po.remaining.getD []
        if d2.isEmpty then
          let fo := flushChain sto (c1 :: po.recs)
          { recs := fo.recs, remaining := some d2, writes := po.writes ++ fo.writes,
            cacheSets := po.cacheSets ++ fo.cacheSets,
            invalidations := po.invalidations + fo.invalidations, error := fo.error }
        else
          { recs := c1 :: po.recs, remaining := some d2, writes := po.writes,
            cacheSets := po.cacheSets, invalidations := po.invalidations,
            error := some ("Field " ++ String.intercalate ", " (keysOf d2) ++
              " does not exist on model " ++ c.model.name) }
    else
      if d1.isEmpty then
        let fo := flushChain sto (c1 :: ps)
        { recs := fo.recs, remaining := some d1, writes := fo.writes,
          cacheSets := fo.cacheSets, invalidations := fo.invalidations, error := fo.error }
      else
        { recs := c1 :: ps, remaining := some d1,
          error := some ("Field " ++ String.intercalate ", " (keysOf d1) ++
            " does not exist on model " ++ c.model.name) }

/-! ### Model.allocate and Model.create

`allocateBase` is `Model.allocate` for a model with no discriminator
field, no registered child models (so the inference fallback matches
nothing) and no parent model: the identity-map check, construction and
registration of lines 449-505 of the Model source.  `allocateChild` is
the same path for a model with a one-level parent (as entered with
`ignoreDiscriminator = true` from `create`, or on a child model, whose
own scopes never route).  The asynchronous deferred-hydration lookup is
not modelled (`_isReady` simply stays `false`). -/

/-- A per-model identity map `entities`: primary-key value to the live
record (chain). -/
abbrev EntMap := List (Value × List RecCore)

/-- `Model.allocate`, no-routing and no-parent path: a truthy `data.id`
that is already tracked returns the tracked instance with the fresh data
merged via `sync`; otherwise a new record is constructed and, when
`data.id` is truthy, registered in the identity map. -/
def allocateBase (m : ModelDef) (ents : EntMap) (d : DataMap) : EntMap × List RecCore :=
  if truthyOpt (mget d "id") then
    let idv := (mget d "id").getD .vNull
    match mget ents idv with
    | some r =>
      let r' := syncChain r d
      (mset ents idv r', r')
    | none =>
      let inst := recNew m d []
      (mset ents idv inst, inst)
  else (ents, recNew m d [])

/-- `Model.allocate` on a model with a one-level parent: the identity-map
check comes first; otherwise the parent is allocated from the data plus
the discriminator value, the child is constructed over it, and a truthy
`data.id` registers the child instance in both the child's and the
parent's identity maps. -/
def allocateChild (child parentM : ModelDef) (discName : String)
    (childEnts parentEnts : EntMap) (d : DataMap) :
    EntMap × EntMap × List RecCore :=
  if truthyOpt (mget d "id") then
    let idv := (mget d "id").getD .vNull
    match mget childEnts idv with
    | some r =>
      let r' := syncChain r d
      (mset childEnts idv r', parentEnts, r')
    | none =>
      let (pents1, parentRec) :=
        allocateBase parentM parentEnts (mset d discName (.vStr child.name))
      let inst := recNew child d parentRec
      (mset childEnts idv inst, mset pents1 idv inst, inst)
  else
    let (pents1, parentRec) :=
      allocateBase parentM parentEnts (mset d discName (.vStr child.name))
    (childEnts, pents1, recNew child d parentRec)

/-- The external database as seen by `Model.create`: an auto-increment
counter and the inserted rows in order.  An INSERT with `returning('id')`
returns the row's primary key: the payload's `id` when supplied, a fresh
generated value otherwise (the SQLite fallback path for missing
`RETURNING` support computes the same id and is not modelled
separately). -/
structure DB where
  nextId : Int := 1
  rows : List (String × DataMap) := []

/-- INSERT returning the primary key. -/
def insertReturning (db : DB) (table : String) (payload : DataMap) : DB × Value :=
  match mget payload "id" with
  | some v => ({ db with rows := db.rows ++ [(table, payload)] }, v)
  | none =>
    let idv := Value.vInt db.nextId
    ({ nextId := db.nextId + 1, rows := db.rows ++ [(table, mset payload "id" idv)] }, idv)

/-- Plain INSERT (the child-table insert of an inherited model). -/
def insertPlain (db : DB) (table : String) (payload : DataMap) : DB :=
  { db with rows := db.rows ++ [(table, payload)] }

/-- The insert-payload construction loop of `create`: stored fields are
validated (a validation error aborts) and serialized; `undefined`
serializations are omitted from the payload. -/
def buildInsert (c : RecCore) : List FieldDef → DataMap → Except String DataMap
  | [], acc => .ok acc
  | f :: fs, acc =>
    if f.stored = false then buildInsert c fs acc
    else
      match f.validateF (view c) with
      | some e => .error e
      | none =>
        match f.serializeF (view c) with
        | some v => buildInsert c fs (mset acc f.column v)
        | none => buildInsert c fs acc

/-- The outcome of the per-record tail of `Model.create` (payload build,
hooks, insert, cache bookkeeping, reconcile). -/
structure SelfCreateOut where
  db : DB
  recOut : List RecCore
  cacheSets : List CacheSetOp := []
  invalidations : Nat := 0
  error : Option String := none

/-- The tail of `Model.create` after allocation: validate/serialize the
insert payload, run the field `pre_create` fan-out, insert (with
`returning('id')` for a root model, assigning the generated id through
the record's setter when unset; a plain insert for an inherited model),
then cache-or-mark-flushed, reconcile changes into `_data`, and run the
`post_create` fan-out. -/
def createSelf (isInherited transactional : Bool) (db : DB) : List RecCore → SelfCreateOut
  | [] => { db := db, recOut := [] }
  | c :: ps =>
    match buildInsert c c.model.fields [] with
    | .error e => { db := db, recOut := c :: ps, error := some e }
    | .ok toInsert =>
      match firstHookErr (fun f => f.pre_createF (view c)) c.model.fields with
      | some e => { db := db, recOut := c :: ps, error := some e }
      | none =>
        let (db1, c1) :=
          if isInherited = false then
            let (db1, retId) := insertReturning db c.model.table toInsert
            -- if (!data.id) data.id = id   (through the id setter)
            (db1, if truthyOpt (readNamed c "id") then c else setNamed c "id" retId)
          else
            (insertPlain db c.model.table toInsert, c)
        let cs :=
          if c1.model.cacheOn = true ∧ transactional = false then
            [CacheSetOp.mk c1.model.name (readNamed c1 "id") (toRawJSON c1) c1.model.cacheTTL]
          else []
        let c2 : RecCore :=
          if c1.model.cacheOn = true ∧ transactional = false then c1
          else { c1 with flushed := true }
        let c3 : RecCore :=
          { c2 with isDirty := false, rdata := moveChanges c2.rdata c2.rchanges, rchanges := [] }
        match firstHookErr (fun f => f.post_createF (view c3)) c3.model.fields with
        | some e => { db := db1, recOut := c3 :: ps, cacheSets := cs, error := some e }
        | none =>
          { db := db1, recOut := c3 :: ps, cacheSets := cs,
            invalidations := if c3.model.cacheInvalidation then 1 else 0, error := none }

/-- The outcome of a `Model.create` call on a root (non-inherited)
model. -/
structure CreateOut where
  ents : EntMap
  db : DB
  recOut : List RecCore
  cacheSets : List CacheSetOp := []
  invalidations : Nat := 0
  error : Option String := none

/-- `Model.create` on a root model (no `super`): allocate (bypassing
discriminator routing) and run the create tail with `returning('id')`. -/
def createBase (m : ModelDef) (transactional : Bool) (ents : EntMap) (db : DB) (d : DataMap) :
    CreateOut :=
  let (ents1, rec) := allocateBase m ents d
  let so := createSelf false transactional db rec
  { ents := ents1, db := so.db, recOut := so.recOut, cacheSets := so.cacheSets,
    invalidations := so.invalidations, error := so.error }

/-- The outcome of a `Model.create` call on a one-level inherited model. -/
structure ChildCreateOut where
  childEnts : EntMap
  parentEnts : EntMap
  db : DB
  recOut : List RecCore
  cacheSets : List CacheSetOp := []
  invalidations : Nat := 0
  error : Option String := none

/-- `Model.create` on a one-level inherited model: create the parent row
first from the data plus the discriminator value (the child model's
name), copy the parent's generated primary key into the caller's data
(`data.id = parentRecord.id`; an undefined id is represented by `vNull`),
allocate the child (bypassing routing), run the create tail with a plain
child-table insert, and finally register the child instance in the
parent's identity map. -/
def createChild (child parentM : ModelDef) (discName : String) (transactional : Bool)
    (childEnts parentEnts : EntMap) (db : DB) (d : DataMap) : ChildCreateOut :=
  let po := createBase parentM transactional parentEnts db (mset d discName (.vStr child.name))
  match po.error with
  | some e =>
    { childEnts := childEnts, parentEnts := po.ents, db := po.db, recOut := [],
      cacheSets := po.cacheSets, invalidations := po.invalidations, error := some e }
  | none =>
    let parentId : Value := (readNamed (po.recOut.headD { model := parentM }) "id").getD .vNull
    let d2 := mset d "id" parentId
    let (cents1, pents1, rec) := allocateChild child parentM discName childEnts po.ents d2
    let so := createSelf true transactional po.db rec
    match so.error with
    | some e =>
      { childEnts := cents1, parentEnts := pents1, db := so.db, recOut := so.recOut,
        cacheSets := po.cacheSets ++ so.cacheSets,
        invalidations := po.invalidations + so.invalidations, error := some e }
    | none =>
      -- if (this.super) this.super.entities.set(data.id, data)
      let idv := (mget d2 "id").getD .vNull
      { childEnts := cents1, parentEnts := mset pents1 idv so.recOut, db := so.db, recOut := so.recOut,
        cacheSets := po.cacheSets ++ so.cacheSets,
        invalidations := po.invalidations + so.invalidations, error := none }

/-! ### InMemoryCacheAdapter (CacheAdapter.ts) -/

/-- The in-memory cache adapter state: key to (value, absolute expiry in
milliseconds).  `Date.now()` is passed explicitly as `now`. -/
structure InMemoryCache where
  cache : List (String × (Value × Nat)) := []

/-- `InMemoryCacheAdapter.set`: store the value with expiry
`now + ttl * 1000`. -/
def InMemoryCache.set (st : InMemoryCache) (now : Nat) (key : String) (v : Value) (ttl : Nat) :
    InMemoryCache :=
  { cache := mset st.cache key (v, now + ttl * 1000) }

/-- `InMemoryCacheAdapter.get`: a missing key or an entry expired by TTL
is a miss (the entry is deleted); with a truthy eviction-marker timestamp
the entry is *also* treated as a miss when its expiry time is at most the
marker; otherwise the stored value is returned. -/
def InMemoryCache.get (st : InMemoryCache) (now : Nat) (key : String)
    (evictTimestamp : Option Nat) : Option Value × InMemoryCache :=
  match mget st.cache key with
  | none => (none, st)
  | some (v, expires) =>
    if expires < now then (none, ⟨merase st.cache key⟩)
    else if (evictTimestamp.getD 0) ≠ 0 ∧ expires ≤ (evictTimestamp.getD 0) then
      (none, ⟨merase st.cache key⟩)
    else (some v, st)

/-- `Modelled from the spec:` the external-cache contract of §6 — "a hit
created before the marker timestamp must be treated as a miss".  Used
only to state what the adapter was required to do. -/
def specMarkerDemandsMiss (createdAt : Nat) (evictTimestamp : Option Nat) : Prop :=
  ∃ m, evictTimestamp = some m ∧ createdAt < m

/-! ### Request (Request.ts) -/

/-- The observable execution state of a `Request`: the `_scopesApplied`
guard, how many times the `_applyScopes` body actually ran, how many
times `queryBuilder.then` was invoked (the external knex builder executes
its query on every such invocation), the builder's `_cacheTTL`, the
builder's `_method`, and whether the model caches. -/
structure ReqState where
  scopesApplied : Bool := false
  applyCount : Nat := 0
  execCount : Nat := 0
  cacheTTL : Option Nat := none
  method : Option String := none
  modelCacheOn : Bool := false
  deriving DecidableEq, Repr

/-- `Request._shouldWrapResults`: write-style methods are never wrapped. -/
def shouldWrapResults (method : Option String) : Bool :=
  match method with
  | none => true
  | some m => !(m == "insert" || m == "update" || m == "upsert" || m == "del" || m == "delete")

/-- One invocation of `Request.then` (one `await`): apply scopes if the
guard is unset (the guard is set by `_applyScopes` itself, so the body
runs at most once); on a cache hit for a caching read request, return the
wrapped cached item without touching the builder; otherwise invoke
`queryBuilder.then`, which triggers a fresh execution of the underlying
query.  `cacheItem` is what `cache.get` returns at this moment. -/
def requestThen (r : ReqState) (cacheItem : Option Value) : ReqState :=
  let r1 :=
    if r.scopesApplied = false then
      { r with scopesApplied := true, applyCount := r.applyCount + 1 }
    else r
  let wrap := shouldWrapResults r1.method
  if wrap = true ∧ r1.modelCacheOn = true ∧ r1.cacheTTL ≠ none ∧ cacheItem ≠ none then
    r1
  else
    { r1 with execCount := r1.execCount + 1 }

/-- `n` successive awaits of the same Request (each with no cache hit). -/
def requestThenIter : Nat → ReqState → ReqState
  | 0, r => r
  | n + 1, r => requestThenIter n (requestThen r none)

/-! ### Concrete field implementations and fixtures

`Fields.ts` is absent from the provided source; the standard scalar
field used by the witnesses below is modelled from the spec. -/

/-- `Modelled from the spec:` reading a record's current value for a
column — the pending change when present, else the persisted value (the
getter contract of §4.2/§4.3; Fields.ts is absent). -/
def stdRead (v : RecView) (col : String) : Option Value :=
  match mget v.rchanges col with
  | some x => some x
  | none => mget v.rdata col

/-- `Modelled from the spec:` a plain stored scalar field (identity
serialize/deserialize over the current value, no constraints, no-op
hooks) — §4.1's field contract; Fields.ts is absent. -/
def stdField (n : String) : FieldDef where
  name := n
  column := n
  serializeF := fun v => stdRead v n
  toJSONF := fun v => stdRead v n

/-- `Modelled from the spec:` a required field: validation fails when the
current value is not truthy (§4.1 required constraint; Fields.ts is
absent).  Used for the parent-side discriminator reference. -/
def requiredField (n : String) : FieldDef :=
  { stdField n with
    validateF := fun v =>
      if truthyOpt (stdRead v n) then none
      else some ("Field " ++ n ++ " is required") }

/-- A field whose validation always throws (a failing constraint), for
the failed-flush scenarios. -/
def badField (n : String) : FieldDef :=
  { stdField n with validateF := fun _ => some ("Validation failed on " ++ n) }

/-- A plain `Users` model: primary key plus one scalar column. -/
def userModel : ModelDef where
  name := "Users"
  table := "users"
  primaryColumn := "id"
  fields := [stdField "id", stdField "email"]

/-- `Users` with a failing validator on `email`. -/
def badModel : ModelDef where
  name := "Users"
  table := "users"
  primaryColumn := "id"
  fields := [stdField "id", badField "email"]

/-- Inheritance parent: primary key plus the (required) discriminator
reference column `ctype`. -/
def animalModel : ModelDef where
  name := "Animals"
  table := "animals"
  primaryColumn := "id"
  fields := [stdField "id", requiredField "ctype"]

/-- Inheritance child of `Animals`: primary key plus one scalar column. -/
def dogModel : ModelDef where
  name := "Dogs"
  table := "dogs"
  primaryColumn := "id"
  fields := [stdField "id", stdField "sound"]

/-- A dirty record of `badModel` whose pending `email` change cannot
validate. -/
def c2rec : RecCore where
  model := badModel
  rdata := [("id", .vInt 1), ("email", .vStr "a@b")]
  rchanges := [("email", .vStr "new@b")]
  isDirty := true
  isReady := true

/-- A dirty record of `userModel` with one pending change. -/
def c7rec : RecCore where
  model := userModel
  rdata := [("id", .vInt 1), ("email", .vStr "a@b")]
  rchanges := [("email", .vStr "new@b")]
  isDirty := true
  isReady := true

/-- A storage collaborator whose UPDATE statement always rejects. -/
def failSto : Storage where
  updateErr := fun _ _ => some "Storage update failed"

/-- A sequence of `allocate` calls folded over the identity map. -/
def allocSeq (m : ModelDef) : EntMap → List DataMap → EntMap
  | ents, [] => ents
  | ents, d :: ds => allocSeq m (allocateBase m ents d).1 ds

/-- A ready child record of `dogModel` (id 5). -/
def dogRec : RecCore where
  model := dogModel
  rdata := [("id", .vInt 5)]
  isReady := true

/-- A ready parent record of `animalModel` (id 5, discriminator `Dogs`). -/
def animalRec : RecCore where
  model := animalModel
  rdata := [("id", .vInt 5), ("ctype", .vStr "Dogs")]
  isReady := true

/-- Whether a record level's own model declares a field named `k` (the
`fields.hasOwnProperty(key)` test of `write`). -/
def ownRecognizes (c : RecCore) (k : String) : Bool :=
  (c.model.fields.find? (fun f => f.name == k)).isSome

/-- Whether any level of the chain declares a field named `k`. -/
def recognizesKey : List RecCore → String → Bool
  | [], _ => false
  | c :: ps, k => ownRecognizes c k || recognizesKey ps k

/-! ## Theorems -/

section MapLemmas

variable {κ : Type} {α : Type} [DecidableEq κ]

theorem mget_mset_self (m : List (κ × α)) (k : κ) (v : α) :
    mget (mset m k v) k = some v := by
  induction m with
  | nil => simp [mget, mset]
  | cons hd tl ih =>
    by_cases h : hd.1 = k <;> simp [mget, mset, h, ih]

theorem mget_mset_ne (m : List (κ × α)) (k k' : κ) (v : α) (h : k ≠ k') :
    mget (mset m k v) k' = mget m k' := by
  induction m with
  | nil => simp [mget, mset, h]
  | cons hd tl ih =>
    by_cases hh : hd.1 = k <;> simp [mget, mset, hh, h, ih]

theorem mget_merase_self (m : List (κ × α)) (k : κ) :
    mget (merase m k) k = none := by
  induction m with
  | nil => simp [merase, mget]
  | cons hd tl ih =>
    by_cases h : hd.1 = k <;> simp [merase, mget, h, ih]

theorem mget_merase_ne (m : List (κ × α)) (k k' : κ) (h : k ≠ k') :
    mget (merase m k) k' = mget m k' := by
  induction m with
  | nil => simp [merase]
  | cons hd tl ih =>
    by_cases hh : hd.1 = k <;> simp [merase, mget, hh, h, ih]

theorem keysOf_mset_of_mem (m : List (κ × α)) (k : κ) (v : α)
    (h : (mget m k).isSome) : keysOf (mset m k v) = keysOf m := by
  induction m with
  | nil => simp [mget] at h
  | cons hd tl ih =>
    by_cases hh : hd.1 = k
    · simp [mset, keysOf, hh]
    · simp [mget, hh] at h
      simp [mset, keysOf, hh] at ih ⊢
      exact ih h

theorem keysOf_mset_of_not_mem (m : List (κ × α)) (k : κ) (v : α)
    (h : mget m k = none) : keysOf (mset m k v) = keysOf m ++ [k] := by
  induction m with
  | nil => simp [mset, keysOf]
  | cons hd tl ih =>
    by_cases hh : hd.1 = k
    · simp [mget, hh] at h
    · simp [mget, hh] at h
      simp [mset, keysOf, hh] at ih ⊢
      exact ih h

theorem mget_isSome_of_mem_keys (m : List (κ × α)) (k : κ)
    (h : k ∈ keysOf m) : (mget m k).isSome := by
  induction m with
  | nil => simp [keysOf] at h
  | cons hd tl ih =>
    by_cases hh : hd.1 = k
    · simp [mget, hh]
    · simp [keysOf] at h
      rcases h with h1 | h1
      · exact absurd h1.symm hh
      · simp only [mget, hh, if_neg hh]
        exact ih (by simpa [keysOf] using h1)

theorem nodup_keys_mset (m : List (κ × α)) (k : κ) (v : α)
    (h : (keysOf m).Nodup) : (keysOf (mset m k v)).Nodup := by
  by_cases hk : (mget m k).isSome
  · rw [keysOf_mset_of_mem m k v hk]; exact h
  · have hnone : mget m k = none := by
      cases hmk : mget m k with
      | none => rfl
      | some x => rw [hmk] at hk; simp at hk
    rw [keysOf_mset_of_not_mem m k v hnone]
    refine List.Nodup.append h (List.nodup_singleton k) ?_
    intro a ha hb
    simp at hb
    subst hb
    have := mget_isSome_of_mem_keys m a ha
    rw [hnone] at this
    simp at this

end MapLemmas

/-- C1: merging two `ScopeOptions` combines where-clauses by logical AND —
appending to an existing top-level `and` list, otherwise wrapping
`[base, incoming]` in a fresh `and` node — while `cache`, `order`,
`limit`, `offset` and `attributes` are replaced by the incoming scope's
value whenever the incoming scope defines them; the last-wins conjuncts
hold for every merged pair, whether or not the incoming scope carries a
where-clause. -/
theorem mergeOptions_where_ands_and_scalar_options_last_win
    (base incoming : ScopeOptions) :
    (∀ w, incoming.whereC = some w →
      (mergeOptions base incoming).whereC =
        some (match base.whereC with
              | some (Where.and l) => Where.and (l ++ [w])
              | some b => Where.and [b, w]
              | none => w))
    ∧ (mergeOptions base incoming).cache =
        (if incoming.cache.isSome then incoming.cache else base.cache)
    ∧ (mergeOptions base incoming).order =
        (if incoming.order.isSome then incoming.order else base.order)
    ∧ (mergeOptions base incoming).limit =
        (if incoming.limit.isSome then incoming.limit else base.limit)
    ∧ (mergeOptions base incoming).offset =
        (if incoming.offset.isSome then incoming.offset else base.offset)
    ∧ (mergeOptions base incoming).attributes =
        (if incoming.attributes.isSome then incoming.attributes else base.attributes) := by
  refine ⟨?_, ?_, ?_, ?_, ?_, ?_⟩
  · intro w h
    have hw : (mergeOptions base incoming).whereC =
        (match incoming.whereC with
         | some w => mergeWhere base.whereC (some w)
         | none => base.whereC) := rfl
    rw [hw, h]
    cases hb : base.whereC with
    | none => rfl
    | some b => cases b <;> rfl
  · cases hc : incoming.cache <;> simp [mergeOptions, hc]
  · cases hc : incoming.order <;> simp [mergeOptions, hc]
  · cases hc : incoming.limit <;> simp [mergeOptions, hc]
  · cases hc : incoming.offset <;> simp [mergeOptions, hc]
  · cases hc : incoming.attributes <;> simp [mergeOptions, hc]

/-- Witness for C1: a default scope `\x7bactive: true, order: [[x,ASC]],
limit: 10\x7d` merged with a scope `\x7bfeatured: true, order: [[y,DESC]],
limit: 3\x7d` yields the AND of the two predicates and the later scope's
order and limit; and a pure scalar merge (`byPriority`/`topThree`, no
where-clauses) also takes the later scope's order and limit. -/
theorem mergeOptions_where_ands_and_scalar_options_last_win_witness :
    ((mergeOptions
        { whereC := some (.pred "active" (.vBool true)), order := some [("x", false)],
          limit := some 10 }
        { whereC := some (.pred "featured" (.vBool true)), order := some [("y", true)],
          limit := some 3 }).whereC =
      some (.and [.pred "active" (.vBool true), .pred "featured" (.vBool true)]))
    ∧ (mergeOptions
        { whereC := some (.pred "active" (.vBool true)), order := some [("x", false)],
          limit := some 10 }
        { whereC := some (.pred "featured" (.vBool true)), order := some [("y", true)],
          limit := some 3 }).order = some [("y", true)]
    ∧ (mergeOptions
        { whereC := some (.pred "active" (.vBool true)), order := some [("x", false)],
          limit := some 10 }
        { whereC := some (.pred "featured" (.vBool true)), order := some [("y", true)],
          limit := some 3 }).limit = some 3
    ∧ (mergeOptions { order := some [("priority", true)], limit := some 10 }
        { order := some [("priority", true)], limit := some 3 }).limit = some 3
    ∧ (mergeOptions { order := some [("priority", true)], limit := some 10 }
        { order := some [("priority", true)], limit := some 3 }).order
        = some [("priority", true)] := by
  have h := mergeOptions_where_ands_and_scalar_options_last_win
    { whereC := some (.pred "active" (.vBool true)), order := some [("x", false)],
      limit := some 10 }
    { whereC := some (.pred "featured" (.vBool true)), order := some [("y", true)],
      limit := some 3 }
  have h' := mergeOptions_where_ands_and_scalar_options_last_win
    { order := some [("priority", true)], limit := some 10 }
    { order := some [("priority", true)], limit := some 3 }
  exact ⟨h.1 (.pred "featured" (.vBool true)) rfl, h.2.2.1, h.2.2.2.1,
    h'.2.2.2.1, h'.2.2.1⟩

theorem applyScopesGo_unknown (sb : ScopeBuilder) (front : List ScopeRequest)
    (r : ScopeRequest) (rest : List ScopeRequest) (acc : ScopeOptions)
    (hfront : ∀ x ∈ front, (mget sb.scopes x.scopeName).isSome)
    (hr : mget sb.scopes r.scopeName = none) :
    applyScopesGo sb (front ++ r :: rest) acc =
      .error ("Scope '" ++ r.scopeName ++ "' not defined on model '" ++ sb.modelName ++ "'") := by
  induction front generalizing acc with
  | nil => simp [applyScopesGo, hr]
  | cons x xs ih =>
    have hx := hfront x (by simp)
    cases hxm : mget sb.scopes x.scopeName with
    | none => rw [hxm] at hx; simp at hx
    | some d =>
      simp only [List.cons_append, applyScopesGo, hxm]
      exact ih _ (fun y hy => hfront y (List.mem_cons_of_mem x hy))

/-- C9: applying a scope request whose name is not registered in the
model's scopes map fails with an error whose message contains both the
requested scope name and the model's name; no merged options accumulator
is returned. -/
theorem applyScopes_unregistered_name_errors
    (sb : ScopeBuilder) (front : List ScopeRequest) (r : ScopeRequest)
    (rest : List ScopeRequest) (includeDefault : Bool)
    (hfront : ∀ x ∈ front, (mget sb.scopes x.scopeName).isSome)
    (hr : mget sb.scopes r.scopeName = none) :
    applyScopes sb (front ++ r :: rest) includeDefault =
      .error ("Scope '" ++ r.scopeName ++ "' not defined on model '" ++ sb.modelName ++ "'")
    ∧ (∀ o, applyScopes sb (front ++ r :: rest) includeDefault ≠ .ok o)
    ∧ (∃ p q, ("Scope '" ++ r.scopeName ++ "' not defined on model '" ++ sb.modelName ++ "'")
        = p ++ r.scopeName ++ q)
    ∧ (∃ p q, ("Scope '" ++ r.scopeName ++ "' not defined on model '" ++ sb.modelName ++ "'")
        = p ++ sb.modelName ++ q) := by
  have hmain : applyScopes sb (front ++ r :: rest) includeDefault =
      .error ("Scope '" ++ r.scopeName ++ "' not defined on model '" ++ sb.modelName ++ "'") := by
    unfold applyScopes
    exact applyScopesGo_unknown sb front r rest _ hfront hr
  refine ⟨hmain, ?_, ?_, ?_⟩
  · intro o hok
    rw [hmain] at hok
    exact Except.noConfusion hok
  · exact ⟨"Scope '", "' not defined on model '" ++ sb.modelName ++ "'", by
      simp [String.append_assoc]⟩
  · exact ⟨"Scope '" ++ r.scopeName ++ "' not defined on model '", "'", by
      simp [String.append_assoc]⟩

/-- Witness for C9: `scope('doesNotExist')` on a model `Users` whose scopes
map contains only `valid` rejects with an error naming `doesNotExist` and
`Users`. -/
theorem applyScopes_unregistered_name_errors_witness :
    applyScopes ⟨"Users", [("valid", .opts { whereC := some (.pred "active" (.vBool true)) })], none⟩
        [.name "doesNotExist"] true =
      .error "Scope 'doesNotExist' not defined on model 'Users'" := by
  have h := (applyScopes_unregistered_name_errors
    ⟨"Users", [("valid", .opts { whereC := some (.pred "active" (.vBool true)) })], none⟩
    [] (.name "doesNotExist") [] true
    (fun x hx => absurd hx (List.not_mem_nil x)) (by rfl)).1
  simpa using h


/-- C2 (counterexample): on `c2rec` — a dirty record whose pending change
fails validation — `flush` rejects and the pending changes survive, but
the record is *not* considered dirty any more (`_isDirty` was reset at
the start of the flush), and a subsequent `flush()` is a no-op (no write,
no error) instead of a retry.  This refutes the claim as stated. -/
theorem flush_failure_then_flush_is_noop_cex :
    (flushChain {} [c2rec]).error.isSome = true
    ∧ ((flushChain {} [c2rec]).recs.headD c2rec).rchanges ≠ []
    ∧ ((flushChain {} [c2rec]).recs.headD c2rec).isDirty = false
    ∧ (flushChain {} (flushChain {} [c2rec]).recs).writes = []
    ∧ (flushChain {} (flushChain {} [c2rec]).recs).error = none := by
  decide

/-- C2 (amended): if field validation or the storage update throws during
`flush()`, the flush rejects and the pending-change set is not cleared;
however `_isDirty` has already been reset at flush entry, so the record
is no longer considered dirty and a subsequent `flush()` (without
re-marking the record dirty) performs no storage write at all rather
than retrying. -/
theorem flush_validation_failure_keeps_changes_but_not_dirty
    (sto : Storage) (c : RecCore) (e : String)
    (hd : c.isDirty = true)
    (hpre : firstHookErr (fun f => f.pre_updateF (view { c with isDirty := false }))
        c.model.fields = none)
    (hfail : buildUpdate { c with isDirty := false } c.model.fields [] = .error e
      ∨ (∃ upd, buildUpdate { c with isDirty := false } c.model.fields [] = .ok upd
          ∧ upd.isEmpty = false ∧ sto.updateErr c.model.table upd = some e)) :
    (flushChain sto [c]).error = some e
    ∧ (flushChain sto [c]).writes = []
    ∧ ((flushChain sto [c]).recs.headD c).rchanges = c.rchanges
    ∧ ((flushChain sto [c]).recs.headD c).isDirty = false
    ∧ (flushChain sto (flushChain sto [c]).recs).writes = []
    ∧ (flushChain sto (flushChain sto [c]).recs).error = none := by
  have h1 : flushChain sto [c] =
      { recs := [{ c with isDirty := false }], error := some e } := by
    rcases hfail with hval | ⟨upd, hbuild, hne, hsto⟩
    · simp [flushChain, flushSelf, hd, hpre, hval]
    · simp [flushChain, flushSelf, hd, hpre, hbuild, hne, hsto]
  rw [h1]
  refine ⟨rfl, rfl, rfl, rfl, ?_, ?_⟩ <;>
    simp [flushChain, flushSelf]

/-- Witness for the amended C2 theorem: the validation-failure case at
`c2rec` and the storage-failure case at `c7rec` with a rejecting
storage. -/
theorem flush_validation_failure_keeps_changes_but_not_dirty_witness :
    ((flushChain {} [c2rec]).error = some "Validation failed on email"
    ∧ (flushChain {} [c2rec]).writes = []
    ∧ ((flushChain {} [c2rec]).recs.headD c2rec).rchanges = c2rec.rchanges
    ∧ ((flushChain {} [c2rec]).recs.headD c2rec).isDirty = false
    ∧ (flushChain {} (flushChain {} [c2rec]).recs).writes = []
    ∧ (flushChain {} (flushChain {} [c2rec]).recs).error = none)
    ∧ ((flushChain failSto [c7rec]).error = some "Storage update failed"
    ∧ (flushChain failSto [c7rec]).writes = []
    ∧ ((flushChain failSto [c7rec]).recs.headD c7rec).rchanges = c7rec.rchanges
    ∧ ((flushChain failSto [c7rec]).recs.headD c7rec).isDirty = false
    ∧ (flushChain failSto (flushChain failSto [c7rec]).recs).writes = []
    ∧ (flushChain failSto (flushChain failSto [c7rec]).recs).error = none) :=
  ⟨flush_validation_failure_keeps_changes_but_not_dirty {} c2rec
     "Validation failed on email" rfl rfl (Or.inl rfl),
   flush_validation_failure_keeps_changes_but_not_dirty failSto c7rec
     "Storage update failed" rfl rfl
     (Or.inr ⟨[("email", some (.vStr "new@b"))], rfl, rfl, rfl⟩)⟩

/-- C3: the in-memory cache adapter's eviction-marker check compares the
marker against the entry's *expiry* time, not its creation time: an entry
created at 1000 ms with a 10 s TTL, read at 3000 ms with an eviction
marker of 2000 ms (later than creation, earlier than expiry), is returned
as a hit — although §6's contract (`specMarkerDemandsMiss`) requires a
miss for any hit created before the marker. -/
theorem inMemoryCache_marker_checks_expiry_not_creation :
    specMarkerDemandsMiss 1000 (some 2000)
    ∧ 3000 < 1000 + 10 * 1000
    ∧ ((InMemoryCache.set {} 1000 "k" (.vInt 42) 10).get 3000 "k" (some 2000)).1
        = some (.vInt 42) := by
  exact ⟨⟨2000, rfl, by norm_num⟩, by norm_num, by decide⟩

/-- C4 (counterexample): awaiting the same Request twice invokes
`queryBuilder.then` twice — the underlying query is executed once per
await, not at most once; only the scope application is guarded. -/
theorem requestThen_second_await_reexecutes_cex :
    (requestThen ({} : ReqState) none).execCount = 1
    ∧ (requestThen (requestThen ({} : ReqState) none) none).execCount = 2
    ∧ (requestThen (requestThen ({} : ReqState) none) none).applyCount = 1 := by
  decide

theorem requestThenIter_applied (n : Nat) (r : ReqState) (h : r.scopesApplied = true) :
    requestThenIter n r = { r with execCount := r.execCount + n } := by
  induction n generalizing r with
  | zero => simp [requestThenIter]
  | succ m ih =>
    have hstep : requestThen r none = { r with execCount := r.execCount + 1 } := by
      simp [requestThen, h]
    rw [requestThenIter, hstep, ih _ (by simp [h])]
    simp [h]
    omega

/-- C4 (amended): scope application is guarded by `_scopesApplied` and
happens exactly once no matter how many times the Request is awaited; but
query execution is *not* guarded — every await of a non-cached Request
invokes the underlying builder's `then` again, re-triggering storage I/O,
so `n` awaits produce `n` executions. -/
theorem requestThen_scopes_once_but_executes_each_await
    (r : ReqState) (h : r.scopesApplied = false) (hc : r.applyCount = 0)
    (n : Nat) (hn : 1 ≤ n) :
    (requestThenIter n r).applyCount = 1
    ∧ (requestThenIter n r).scopesApplied = true
    ∧ (requestThenIter n r).execCount = r.execCount + n := by
  obtain ⟨m, rfl⟩ : ∃ m, n = m + 1 := ⟨n - 1, by omega⟩
  have hstep : requestThen r none =
      { r with scopesApplied := true, applyCount := r.applyCount + 1,
               execCount := r.execCount + 1 } := by
    simp [requestThen, h]
  rw [requestThenIter, hstep, requestThenIter_applied m _ (by simp)]
  simp [hc]
  omega

/-- Witness for the amended C4 theorem: two awaits of a fresh Request
apply scopes once and execute twice. -/
theorem requestThen_scopes_once_but_executes_each_await_witness :
    (requestThenIter 2 ({} : ReqState)).applyCount = 1
    ∧ (requestThenIter 2 ({} : ReqState)).scopesApplied = true
    ∧ (requestThenIter 2 ({} : ReqState)).execCount = ({} : ReqState).execCount + 2 :=
  requestThen_scopes_once_but_executes_each_await {} rfl rfl 2 (by norm_num)

/-- C7: flushing a chain-clean record performs no storage operation and
returns the record unchanged; and a dirty record whose update payload is
non-empty and whose hooks, validation and storage write succeed is
written exactly once — an immediately following `flush()` performs no
further write. -/
theorem flush_clean_noop_and_dirty_single_write :
    (∀ (sto : Storage) (l : List RecCore), (∀ c ∈ l, c.isDirty = false) →
        flushChain sto l = { recs := l })
    ∧ (∀ (sto : Storage) (c : RecCore) (upd : List (String × Option Value)),
        c.isDirty = true →
        firstHookErr (fun f => f.pre_updateF (view { c with isDirty := false }))
          c.model.fields = none →
        buildUpdate { c with isDirty := false } c.model.fields [] = .ok upd →
        upd.isEmpty = false →
        sto.updateErr c.model.table upd = none →
        postUpdateHooksErr (reconcileCore { c with isDirty := false }) upd = none →
        (flushChain sto [c]).writes.length = 1
        ∧ (flushChain sto [c]).error = none
        ∧ (flushChain sto (flushChain sto [c]).recs).writes = []) := by
  constructor
  · intro sto l hcl
    induction l with
    | nil => rfl
    | cons c ps ih =>
      have hc : c.isDirty = false := hcl c (by simp)
      have hps := ih (fun x hx => hcl x (List.mem_cons_of_mem c hx))
      simp [flushChain, hps, flushSelf, hc]
  · intro sto c upd hd hpre hbuild hne hsto hpost
    simp only [reconcileCore] at hpost
    refine ⟨?_, ?_, ?_⟩ <;>
      simp [flushChain, flushSelf, hd, hpre, hbuild, hne, hsto, hpost, reconcileCore]

/-- Witness for C7: the clean part on the already-flushed `c7rec`, and
the dirty part on `c7rec` itself (one write, then none). -/
theorem flush_clean_noop_and_dirty_single_write_witness :
    flushChain {} [reconcileCore { c7rec with isDirty := false }] =
      { recs := [reconcileCore { c7rec with isDirty := false }] }
    ∧ (flushChain {} [c7rec]).writes.length = 1
    ∧ (flushChain {} [c7rec]).error = none
    ∧ (flushChain {} (flushChain {} [c7rec]).recs).writes = [] :=
  ⟨flush_clean_noop_and_dirty_single_write.1 {} _ (by decide),
   (flush_clean_noop_and_dirty_single_write.2 {} c7rec
      [("email", some (.vStr "new@b"))] rfl rfl rfl rfl rfl rfl).1,
   (flush_clean_noop_and_dirty_single_write.2 {} c7rec
      [("email", some (.vStr "new@b"))] rfl rfl rfl rfl rfl rfl).2.1,
   (flush_clean_noop_and_dirty_single_write.2 {} c7rec
      [("email", some (.vStr "new@b"))] rfl rfl rfl rfl rfl rfl).2.2⟩

theorem allocate_step_nodup (m : ModelDef) (ents : EntMap) (d : DataMap)
    (h : (keysOf ents).Nodup) : (keysOf (allocateBase m ents d).1).Nodup := by
  unfold allocateBase
  by_cases ht : truthyOpt (mget d "id") = true
  · simp only [ht, if_true]
    cases hm : mget ents ((mget d "id").getD .vNull) with
    | some r => exact nodup_keys_mset _ _ _ h
    | none => exact nodup_keys_mset _ _ _ h
  · simp only [ht]
    simp at ht
    simp [ht, h]

/-- C5: over any sequence of `allocate` calls the identity map keeps at
most one entry per primary-key value; and an `allocate` call whose truthy
`data.id` is already tracked returns the tracked instance with the fresh
data merged into it via `sync` — the identity map is rebound to that same
synced instance and no replacement record is constructed. -/
theorem allocate_identity_map_unique_and_merges :
    (∀ (m : ModelDef) (ents : EntMap) (ds : List DataMap),
        (keysOf ents).Nodup → (keysOf (allocSeq m ents ds)).Nodup)
    ∧ (∀ (m : ModelDef) (ents : EntMap) (d : DataMap) (idv : Value) (r : List RecCore),
        mget d "id" = some idv → truthy idv = true → mget ents idv = some r →
        allocateBase m ents d = (mset ents idv (syncChain r d), syncChain r d)) := by
  constructor
  · intro m ents ds
    induction ds generalizing ents with
    | nil => intro h; exact h
    | cons d ds ih => intro h; exact ih _ (allocate_step_nodup m ents d h)
  · intro m ents d idv r hid ht hr
    simp [allocateBase, hid, truthyOpt, ht, hr]

/-- Witness for C5: two allocations with id 7 keep a single identity-map
entry, and the second returns the first instance synced with the fresh
data. -/
theorem allocate_identity_map_unique_and_merges_witness :
    (keysOf (allocSeq userModel []
        [[("id", .vInt 7), ("email", .vStr "x")], [("id", .vInt 7), ("email", .vStr "y")]])).Nodup
    ∧ allocateBase userModel
        [(.vInt 7, recNew userModel [("id", .vInt 7), ("email", .vStr "x")] [])]
        [("id", .vInt 7), ("email", .vStr "y")]
      = (mset [(.vInt 7, recNew userModel [("id", .vInt 7), ("email", .vStr "x")] [])] (.vInt 7)
           (syncChain (recNew userModel [("id", .vInt 7), ("email", .vStr "x")] [])
             [("id", .vInt 7), ("email", .vStr "y")]),
         syncChain (recNew userModel [("id", .vInt 7), ("email", .vStr "x")] [])
           [("id", .vInt 7), ("email", .vStr "y")]) :=
  ⟨allocate_identity_map_unique_and_merges.1 userModel [] _ List.nodup_nil,
   allocate_identity_map_unique_and_merges.2 userModel _ _ (.vInt 7) _ rfl rfl rfl⟩

theorem syncField_preserves_other (pk : String) (d : DataMap) (acc : RecCore) (g : FieldDef)
    (col : String) (hne : g.column ≠ col) :
    mget (syncField pk d acc g).rdata col = mget acc.rdata col
    ∧ mget (syncField pk d acc g).rchanges col = mget acc.rchanges col := by
  unfold syncField
  split_ifs with h1 h2 h3
  · exact ⟨rfl, rfl⟩
  · exact ⟨mget_mset_ne acc.rdata g.column col _ hne, mget_merase_ne acc.rchanges g.column col hne⟩
  · exact ⟨mget_mset_ne acc.rdata g.column col _ hne, mget_merase_ne acc.rchanges g.column col hne⟩
  · exact ⟨rfl, rfl⟩

theorem syncFold_preserves (pk : String) (d : DataMap) (fs : List FieldDef) (acc : RecCore)
    (col : String) (h : ∀ g ∈ fs, g.column ≠ col) :
    mget (fs.foldl (syncField pk d) acc).rdata col = mget acc.rdata col
    ∧ mget (fs.foldl (syncField pk d) acc).rchanges col = mget acc.rchanges col := by
  induction fs generalizing acc with
  | nil => exact ⟨rfl, rfl⟩
  | cons g gs ih =>
    have h0 := syncField_preserves_other pk d acc g col (h g (by simp))
    have hrec := ih (syncField pk d acc g) (fun x hx => h x (List.mem_cons_of_mem g hx))
    rw [List.foldl_cons]
    exact ⟨hrec.1.trans h0.1, hrec.2.trans h0.2⟩

theorem syncFold_pk_preserved (pk : String) (d : DataMap) (fs : List FieldDef) (acc : RecCore)
    (h : truthyOpt (mget acc.rdata pk) = true) :
    mget (fs.foldl (syncField pk d) acc).rdata pk = mget acc.rdata pk := by
  induction fs generalizing acc with
  | nil => rfl
  | cons g gs ih =>
    by_cases hg : g.column = pk
    · have hstep : syncField pk d acc g = acc := by
        unfold syncField
        split_ifs with h1 h2 h3
        · rfl
        · exact absurd ⟨hg, by rw [hg]; exact h⟩ h2
        · exact absurd ⟨hg, by rw [hg]; exact h⟩ h2
        · rfl
      rw [List.foldl_cons, hstep]
      exact ih acc h
    · have h0 := syncField_preserves_other pk d acc g pk hg
      have h' : truthyOpt (mget (syncField pk d acc g).rdata pk) = true := by
        rw [h0.1]; exact h
      rw [List.foldl_cons, ih _ h', h0.1]

theorem syncField_writes (pk : String) (d : DataMap) (acc : RecCore) (f : FieldDef)
    (hcol : f.column ≠ pk)
    (hkey : hasOwn d f.name = true ∨ hasOwn d f.column = true) :
    mget (syncField pk d acc f).rdata f.column =
      some (f.deserialize ((mget d (if hasOwn d f.name then f.name else f.column)).getD .vNull))
    ∧ mget (syncField pk d acc f).rchanges f.column = none := by
  unfold syncField
  have h2 : ¬ (f.column = pk ∧ truthyOpt (mget acc.rdata f.column) = true) := by
    intro hc; exact hcol hc.1
  simp [hkey, h2, mget_mset_self, mget_merase_self]

theorem syncFold_writes_field (pk : String) (d : DataMap) (fs : List FieldDef) (acc : RecCore)
    (f : FieldDef) (hnd : (fs.map (fun g => g.column)).Nodup) (hf : f ∈ fs)
    (hcol : f.column ≠ pk)
    (hkey : hasOwn d f.name = true ∨ hasOwn d f.column = true) :
    mget (fs.foldl (syncField pk d) acc).rdata f.column =
      some (f.deserialize ((mget d (if hasOwn d f.name then f.name else f.column)).getD .vNull))
    ∧ mget (fs.foldl (syncField pk d) acc).rchanges f.column = none := by
  induction fs generalizing acc with
  | nil => simp at hf
  | cons g gs ih =>
    rcases List.mem_cons.mp hf with rfl | hmem
    · have hstep := syncField_writes pk d acc f hcol hkey
      have hothers : ∀ x ∈ gs, x.column ≠ f.column := by
        intro x hx he
        exact (List.nodup_cons.mp hnd).1 (List.mem_map.mpr ⟨x, hx, he⟩)
      have hpres := syncFold_preserves pk d gs (syncField pk d acc f) f.column hothers
      rw [List.foldl_cons]
      exact ⟨hpres.1.trans hstep.1, hpres.2.trans hstep.2⟩
    · rw [List.foldl_cons]
      exact ih _ (List.nodup_cons.mp hnd).2 hmem

/-- C8: `sync(data)` syncs the parent chain as well; a primary-key column
already holding a truthy value is left unchanged; and every other field
whose name or column appears in `data` (the declared name preferred) gets
the deserialized incoming value written into `_data` with any pending
change for its column cleared. -/
theorem sync_pk_immutable_and_external_value_wins :
    (∀ (c : RecCore) (ps : List RecCore) (d : DataMap),
        syncChain (c :: ps) d = syncCore c d :: syncChain ps d)
    ∧ (∀ (c : RecCore) (d : DataMap),
        truthyOpt (mget c.rdata c.model.primaryColumn) = true →
        mget (syncCore c d).rdata c.model.primaryColumn = mget c.rdata c.model.primaryColumn)
    ∧ (∀ (c : RecCore) (d : DataMap) (f : FieldDef),
        ((c.model.fields.map (fun g => g.column)).Nodup) → f ∈ c.model.fields →
        f.column ≠ c.model.primaryColumn →
        (hasOwn d f.name = true ∨ hasOwn d f.column = true) →
        mget (syncCore c d).rdata f.column =
          some (f.deserialize ((mget d (if hasOwn d f.name then f.name else f.column)).getD .vNull))
        ∧ mget (syncCore c d).rchanges f.column = none) := by
  refine ⟨fun c ps d => rfl, ?_, ?_⟩
  · intro c d h
    unfold syncCore
    exact syncFold_pk_preserved c.model.primaryColumn d c.model.fields c h
  · intro c d f hnd hf hcol hkey
    unfold syncCore
    exact syncFold_writes_field c.model.primaryColumn d c.model.fields c f hnd hf hcol hkey

/-- Witness for C8 on `c7rec` (pk already set, a pending `email` change)
synced with fresh external data: the pk survives, the external `email`
value lands in `_data` and the pending change is cleared. -/
theorem sync_pk_immutable_and_external_value_wins_witness :
    syncChain [c7rec, c7rec] [("email", .vStr "ext@b")]
      = syncCore c7rec [("email", .vStr "ext@b")] :: syncChain [c7rec] [("email", .vStr "ext@b")]
    ∧ mget (syncCore c7rec [("email", .vStr "ext@b"), ("id", .vInt 99)]).rdata "id"
        = mget c7rec.rdata "id"
    ∧ mget (syncCore c7rec [("email", .vStr "ext@b")]).rdata "email"
        = some ((stdField "email").deserialize
            ((mget [("email", Value.vStr "ext@b")] "email").getD .vNull))
    ∧ mget (syncCore c7rec [("email", .vStr "ext@b")]).rchanges "email" = none := by
  have h2 := sync_pk_immutable_and_external_value_wins.2.1 c7rec
    [("email", .vStr "ext@b"), ("id", .vInt 99)] (by decide)
  have h3 := sync_pk_immutable_and_external_value_wins.2.2 c7rec
    [("email", .vStr "ext@b")] (stdField "email") (by decide)
    (List.mem_cons_of_mem _ (List.mem_cons_self _ _)) (by decide) (Or.inl (by decide))
  exact ⟨sync_pk_immutable_and_external_value_wins.1 c7rec [c7rec] _, h2, h3.1, h3.2⟩

theorem merase_eq_filter (m : DataMap) (k : String) :
    merase m k = m.filter (fun kv => !decide (kv.1 = k)) := by
  induction m with
  | nil => rfl
  | cons hd tl ih =>
    by_cases h : hd.1 = k <;> simp [merase, h, ih, List.filter_cons]

theorem writeAssign_snd (c : RecCore) (l : DataMap) (p : RecCore × DataMap) :
    (l.foldl (fun (acc : RecCore × DataMap) kv =>
      match c.model.fields.find? (fun f => f.name == kv.1) with
      | some f =>
        ({ acc.1 with rchanges := mset acc.1.rchanges f.column kv.2, isDirty := true },
         merase acc.2 kv.1)
      | none => acc) p).2
    = l.foldl (fun a kv => if ownRecognizes c kv.1 then merase a kv.1 else a) p.2 := by
  induction l generalizing p with
  | nil => rfl
  | cons kv tl ih =>
    rw [List.foldl_cons, List.foldl_cons]
    cases hfind : c.model.fields.find? (fun f => f.name == kv.1) with
    | some f => rw [ih]; simp [ownRecognizes, hfind]
    | none => rw [ih]; simp [ownRecognizes, hfind]

theorem foldl_delete_filter (c : RecCore) (l acc : DataMap) :
    l.foldl (fun a kv => if ownRecognizes c kv.1 then merase a kv.1 else a) acc
    = acc.filter (fun kv => !(ownRecognizes c kv.1 && decide (kv.1 ∈ keysOf l))) := by
  induction l generalizing acc with
  | nil => simp [keysOf]
  | cons hd tl ih =>
    rw [List.foldl_cons]
    by_cases hp : ownRecognizes c hd.1 = true
    · rw [if_pos hp, ih, merase_eq_filter, List.filter_filter]
      apply List.filter_congr
      intro x _
      by_cases hxk : x.1 = hd.1
      · simp [hxk, hp, keysOf]
      · simp [hxk, keysOf, beq_false_of_ne hxk]
    · rw [if_neg (by simpa using hp), ih]
      apply List.filter_congr
      intro x _
      by_cases hxk : x.1 = hd.1
      · simp only [Bool.eq_false_iff, ne_eq, not_not] at hp
        simp [hxk, keysOf, Bool.not_eq_true] at hp ⊢
        simp [hp]
      · simp [hxk, keysOf, beq_false_of_ne hxk]

theorem writeAssign_remaining (c : RecCore) (d : DataMap) :
    (writeAssign c d).2 = d.filter (fun kv => !ownRecognizes c kv.1) := by
  unfold writeAssign
  rw [writeAssign_snd c d (c, d)]
  rw [foldl_delete_filter]
  apply List.filter_congr
  intro x hx
  have : x.1 ∈ keysOf d := List.mem_map_of_mem Prod.fst hx
  simp [this]

theorem filter_recognizes_cons (c : RecCore) (ps : List RecCore) (d : DataMap) :
    (d.filter (fun kv => !ownRecognizes c kv.1)).filter (fun kv => !recognizesKey ps kv.1)
      = d.filter (fun kv => !recognizesKey (c :: ps) kv.1) := by
  rw [List.filter_filter]
  apply List.filter_congr
  intro x _
  cases h1 : ownRecognizes c x.1 <;> cases h2 : recognizesKey ps x.1 <;>
    simp [recognizesKey, h1, h2]

theorem filter_chain_nil_of_own_nil (c : RecCore) (ps : List RecCore) (d : DataMap)
    (h : d.filter (fun kv => !ownRecognizes c kv.1) = []) :
    d.filter (fun kv => !recognizesKey (c :: ps) kv.1) = [] := by
  rw [List.filter_eq_nil_iff] at h ⊢
  intro a ha hpred
  apply h a ha
  simp [recognizesKey] at hpred ⊢
  exact hpred.1

theorem writeChain_cons_some (sto : Storage) (c : RecCore) (ps : List RecCore) (d : DataMap) :
    writeChain sto (c :: ps) (some d) =
      (match writeAssign c d with
       | (c1, d1) =>
         if ps.isEmpty = false ∧ d1.isEmpty = false then
           let po := writeChain sto ps (some d1)
           match po.error with
           | some e =>
             { recs := c1 :: po.recs, remaining := po.remaining, writes := po.writes,
               cacheSets := po.cacheSets, invalidations := po.invalidations, error := some e }
           | none =>
             let d2 := po.remaining.getD []
             if d2.isEmpty then
               let fo := flushChain sto (c1 :: po.recs)
               { recs := fo.recs, remaining := some d2, writes := po.writes ++ fo.writes,
                 cacheSets := po.cacheSets ++ fo.cacheSets,
                 invalidations := po.invalidations + fo.invalidations, error := fo.error }
             else
               { recs := c1 :: po.recs, remaining := some d2, writes := po.writes,
                 cacheSets := po.cacheSets, invalidations := po.invalidations,
                 error := some ("Field " ++ String.intercalate ", " (keysOf d2) ++
                   " does not exist on model " ++ c.model.name) }
         else
           if d1.isEmpty then
             let fo := flushChain sto (c1 :: ps)
             { recs := fo.recs, remaining := some d1, writes := fo.writes,
               cacheSets := fo.cacheSets, invalidations := fo.invalidations, error := fo.error }
           else
             { recs := c1 :: ps, remaining := some d1,
               error := some ("Field " ++ String.intercalate ", " (keysOf d1) ++
                 " does not exist on model " ++ c.model.name) }) := rfl

theorem writeChain_remaining (sto : Storage) (ps : List RecCore) :
    ∀ (c : RecCore) (d : DataMap),
      (writeChain sto (c :: ps) (some d)).remaining
        = some (d.filter (fun kv => !recognizesKey (c :: ps) kv.1)) := by
  induction ps with
  | nil =>
    intro c d
    rcases hw : writeAssign c d with ⟨c1, d1⟩
    have hd1 : d1 = d.filter (fun kv => !ownRecognizes c kv.1) := by
      have h := writeAssign_remaining c d
      rw [hw] at h
      exact h
    have hpred : d.filter (fun kv => !recognizesKey [c] kv.1)
        = d.filter (fun kv => !ownRecognizes c kv.1) := by
      apply List.filter_congr
      intro x _
      simp [recognizesKey]
    rw [writeChain_cons_some]
    simp only [hw]
    rw [if_neg (by simp)]
    simp only [hd1, ← hpred]
    split <;> rfl
  | cons p ps' ih =>
    intro c d
    rcases hw : writeAssign c d with ⟨c1, d1⟩
    have hd1 : d1 = d.filter (fun kv => !ownRecognizes c kv.1) := by
      have h := writeAssign_remaining c d
      rw [hw] at h
      exact h
    rw [writeChain_cons_some]
    simp only [hw]
    by_cases he : d1.isEmpty
    · rw [if_neg (by simp [he])]
      rw [if_pos he]
      have hnil : d1 = [] := List.isEmpty_iff.mp he
      rw [hnil] at hd1
      simp [hnil, filter_chain_nil_of_own_nil c (p :: ps') d hd1.symm]
    · rw [if_pos (by simp [he])]
      have hrec := ih p d1
      cases herr : (writeChain sto (p :: ps') (some d1)).error with
      | some e =>
        simp only [herr, hrec]
        rw [hd1, filter_recognizes_cons]
      | none =>
        simp only [herr, hrec, Option.getD_some]
        split <;> rw [hd1, filter_recognizes_cons]

theorem writeChain_success_empties (sto : Storage) (ps : List RecCore) :
    ∀ (c : RecCore) (d : DataMap),
      (writeChain sto (c :: ps) (some d)).error = none →
      (writeChain sto (c :: ps) (some d)).remaining = some [] := by
  induction ps with
  | nil =>
    intro c d herr
    rcases hw : writeAssign c d with ⟨c1, d1⟩
    rw [writeChain_cons_some] at herr ⊢
    simp only [hw] at herr ⊢
    rw [if_neg (by simp)] at herr ⊢
    by_cases he : d1.isEmpty
    · rw [if_pos he] at herr ⊢
      simp [List.isEmpty_iff.mp he]
    · rw [if_neg he] at herr
      simp at herr
  | cons p ps' ih =>
    intro c d herr
    rcases hw : writeAssign c d with ⟨c1, d1⟩
    rw [writeChain_cons_some] at herr ⊢
    simp only [hw] at herr ⊢
    by_cases hcond : (p :: ps').isEmpty = false ∧ d1.isEmpty = false
    · rw [if_pos hcond] at herr ⊢
      cases hperr : (writeChain sto (p :: ps') (some d1)).error with
      | some e =>
        simp only [hperr] at herr
        exact absurd herr (by simp)
      | none =>
        simp only [hperr] at herr ⊢
        by_cases hde : ((writeChain sto (p :: ps') (some d1)).remaining.getD []).isEmpty
        · rw [if_pos hde] at herr ⊢
          simp [List.isEmpty_iff.mp hde]
        · rw [if_neg hde] at herr
          simp at herr
    · rw [if_neg hcond] at herr ⊢
      by_cases he : d1.isEmpty
      · rw [if_pos he] at herr ⊢
        simp [List.isEmpty_iff.mp he]
      · rw [if_neg he] at herr
        simp at herr

theorem writeChain_unknown_keys_error (sto : Storage) (ps : List RecCore) :
    ∀ (c : RecCore) (d : DataMap),
      d.filter (fun kv => !recognizesKey (c :: ps) kv.1) ≠ [] →
      ∃ t, (c :: ps).getLast? = some t ∧
        (writeChain sto (c :: ps) (some d)).error =
          some ("Field " ++ String.intercalate ", "
              (keysOf (d.filter (fun kv => !recognizesKey (c :: ps) kv.1))) ++
            " does not exist on model " ++ t.model.name) := by
  induction ps with
  | nil =>
    intro c d hne
    rcases hw : writeAssign c d with ⟨c1, d1⟩
    have hd1 : d1 = d.filter (fun kv => !ownRecognizes c kv.1) := by
      have h := writeAssign_remaining c d
      rw [hw] at h
      exact h
    have hpred : d.filter (fun kv => !recognizesKey [c] kv.1)
        = d.filter (fun kv => !ownRecognizes c kv.1) := by
      apply List.filter_congr
      intro x _
      simp [recognizesKey]
    refine ⟨c, rfl, ?_⟩
    rw [writeChain_cons_some]
    simp only [hw]
    rw [if_neg (by simp)]
    have hne' : ¬ d1.isEmpty = true := by
      rw [hd1, ← hpred]
      simpa [List.isEmpty_iff] using hne
    rw [if_neg hne']
    rw [hd1, ← hpred]
  | cons p ps' ih =>
    intro c d hne
    rcases hw : writeAssign c d with ⟨c1, d1⟩
    have hd1 : d1 = d.filter (fun kv => !ownRecognizes c kv.1) := by
      have h := writeAssign_remaining c d
      rw [hw] at h
      exact h
    have hchain : d1.filter (fun kv => !recognizesKey (p :: ps') kv.1)
        = d.filter (fun kv => !recognizesKey (c :: p :: ps') kv.1) := by
      rw [hd1, filter_recognizes_cons]
    have hne2 : d1.filter (fun kv => !recognizesKey (p :: ps') kv.1) ≠ [] := by
      rw [hchain]; exact hne
    have hne1 : ¬ d1.isEmpty = true := by
      intro he
      rw [List.isEmpty_iff.mp he] at hne2
      exact hne2 rfl
    obtain ⟨t, hlast, herr⟩ := ih p d1 hne2
    refine ⟨t, by rw [List.getLast?_cons_cons]; exact hlast, ?_⟩
    rw [writeChain_cons_some]
    simp only [hw]
    rw [if_pos ⟨rfl, by simpa using hne1⟩]
    cases hperr : (writeChain sto (p :: ps') (some d1)).error with
    | some e =>
      have : some e = some ("Field " ++ String.intercalate ", "
          (keysOf (d1.filter (fun kv => !recognizesKey (p :: ps') kv.1))) ++
          " does not exist on model " ++ t.model.name) := by
        rw [← hperr, herr]
      simp only [this, hchain]
    | none =>
      rw [hperr] at herr
      exact absurd herr (by simp)

/-- C10: `write(data)` mutates the caller's object — the surviving data
is exactly the keys no model in the parent chain recognizes; on a
successful write the object is emptied entirely; and when unrecognized
keys survive, the error raised (by the topmost ancestor reached) names
exactly those surviving keys. -/
theorem write_mutates_caller_data_and_errors_name_survivors :
    (∀ (sto : Storage) (ps : List RecCore) (c : RecCore) (d : DataMap),
        (writeChain sto (c :: ps) (some d)).remaining
          = some (d.filter (fun kv => !recognizesKey (c :: ps) kv.1)))
    ∧ (∀ (sto : Storage) (ps : List RecCore) (c : RecCore) (d : DataMap),
        (writeChain sto (c :: ps) (some d)).error = none →
        (writeChain sto (c :: ps) (some d)).remaining = some [])
    ∧ (∀ (sto : Storage) (ps : List RecCore) (c : RecCore) (d : DataMap),
        d.filter (fun kv => !recognizesKey (c :: ps) kv.1) ≠ [] →
        ∃ t, (c :: ps).getLast? = some t ∧
          (writeChain sto (c :: ps) (some d)).error =
            some ("Field " ++ String.intercalate ", "
                (keysOf (d.filter (fun kv => !recognizesKey (c :: ps) kv.1))) ++
              " does not exist on model " ++ t.model.name)) :=
  ⟨fun sto ps c d => writeChain_remaining sto ps c d,
   fun sto ps c d h => writeChain_success_empties sto ps c d h,
   fun sto ps c d h => writeChain_unknown_keys_error sto ps c d h⟩

/-- Witness for C10 on a Dogs record with an Animals parent: recognized
keys are deleted from the caller's object; a fully recognized write
empties it; an unrecognized key `oops` survives and is named in the error
raised by the topmost ancestor (`Animals`). -/
theorem write_mutates_caller_data_and_errors_name_survivors_witness :
    (writeChain {} [dogRec, animalRec]
        (some [("sound", .vStr "bark"), ("oops", .vInt 1)])).remaining
      = some ([("sound", .vStr "bark"), ("oops", .vInt 1)].filter
          (fun kv => !recognizesKey [dogRec, animalRec] kv.1))
    ∧ (writeChain {} [dogRec, animalRec]
        (some [("sound", .vStr "bark"), ("ctype", .vStr "Cats")])).remaining = some []
    ∧ (∃ t : RecCore, ([dogRec, animalRec]).getLast? = some t ∧
        (writeChain {} [dogRec, animalRec]
            (some [("sound", .vStr "bark"), ("oops", .vInt 1)])).error =
          some ("Field " ++ String.intercalate ", "
              (keysOf (([("sound", Value.vStr "bark"), ("oops", Value.vInt 1)] : DataMap).filter
                (fun kv => !recognizesKey [dogRec, animalRec] kv.1))) ++
            " does not exist on model " ++ t.model.name)) :=
  ⟨write_mutates_caller_data_and_errors_name_survivors.1 {} [animalRec] dogRec _,
   write_mutates_caller_data_and_errors_name_survivors.2.1 {} [animalRec] dogRec
     [("sound", .vStr "bark"), ("ctype", .vStr "Cats")] (by decide),
   write_mutates_caller_data_and_errors_name_survivors.2.2 {} [animalRec] dogRec
     [("sound", .vStr "bark"), ("oops", .vInt 1)] (by decide)⟩

set_option maxHeartbeats 3200000 in
/-- C6: creating a record of an inherited model inserts the parent-table
row first, with the discriminator column set to the child model's name,
and then the child-table row with a primary key identical to the parent
row's generated key (shown on the `Dogs`/`Animals` pair for any fresh
database state and field value). -/
theorem create_inherited_shares_parent_key
    (n : Int) (rs : List (String × DataMap)) (v : Value)
    (hn : truthy (.vInt n) = true) :
    (createChild dogModel animalModel "ctype" false [] [] { nextId := n, rows := rs }
        [("sound", v)]).error = none
    ∧ (createChild dogModel animalModel "ctype" false [] [] { nextId := n, rows := rs }
        [("sound", v)]).db.rows
      = rs ++ [("animals", [("ctype", .vStr "Dogs"), ("id", .vInt n)]),
               ("dogs", [("id", .vInt n), ("sound", v)])]
    ∧ mget [("ctype", Value.vStr "Dogs"), ("id", Value.vInt n)] "ctype" = some (.vStr "Dogs")
    ∧ mget [("ctype", Value.vStr "Dogs"), ("id", Value.vInt n)] "id" = some (.vInt n)
    ∧ mget [("id", Value.vInt n), ("sound", v)] "id" = some (.vInt n) := by
  have hdog : truthy (Value.vStr "Dogs") = true := by decide
  refine ⟨?_, ?_, rfl, rfl, rfl⟩ <;>
    simp [hdog, createChild, createBase, createSelf, allocateBase, allocateChild, buildInsert,
      insertReturning, insertPlain, recNew, syncChain, syncCore, syncField, stdField,
      requiredField, stdRead, readNamed, setNamed, moveChanges, toRawJSON, firstHookErr,
      view, dogModel, animalModel, mset, mget, merase, hasOwn, truthyOpt, hn, keysOf,
      reconcileCore]

/-- Witness for C6 at `nextId = 1`, empty database, `sound = "woof"`. -/
theorem create_inherited_shares_parent_key_witness :
    (createChild dogModel animalModel "ctype" false [] [] { nextId := 1, rows := [] }
        [("sound", .vStr "woof")]).error = none
    ∧ (createChild dogModel animalModel "ctype" false [] [] { nextId := 1, rows := [] }
        [("sound", .vStr "woof")]).db.rows
      = [] ++ [("animals", [("ctype", .vStr "Dogs"), ("id", .vInt 1)]),
               ("dogs", [("id", .vInt 1), ("sound", .vStr "woof")])]
    ∧ mget [("ctype", Value.vStr "Dogs"), ("id", Value.vInt 1)] "ctype" = some (.vStr "Dogs")
    ∧ mget [("ctype", Value.vStr "Dogs"), ("id", Value.vInt 1)] "id" = some (.vInt 1)
    ∧ mget [("id", Value.vInt 1), ("sound", Value.vStr "woof")] "id" = some (.vInt 1) :=
  create_inherited_shares_parent_key 1 [] (.vStr "woof") (by decide)

end Normal
